import Mathlib

/-!
Shallow embedding of the visirs visual-grouping pipeline
(`src/visual_grouping/{hash.rs, grouping.rs, video.rs, mod.rs}`).

Modelling conventions:
* Machine integers (`u8` hash bytes, `u32` distances/thresholds, `usize`
  indices) are embedded as `Nat`.  None of the embedded arithmetic can
  overflow at the values the code manipulates (a hamming distance is at
  most 8·len), so no `% 2^w` reduction is needed.
* `f64` video durations and intervals (video.rs) are embedded as `ℚ`.
  Every constant the interval-selection code compares against (10.0,
  30.0, 60.0, 1.5, 3.0, 4.0, 5.0) is exactly representable in binary
  floating point and the comparisons are exact, and the timestamp loop
  only ever adds the exactly-representable interval to an exact multiple
  of itself, so over the code's domain the `ℚ` semantics and the `f64`
  semantics agree.
* Fallible Rust functions (`Result`) are embedded as `Option`.
* File-system / ffmpeg effects (opening images, decoding video frames,
  temp directories) are outside the embedding: the grouping engine is
  embedded over the list of already-hashed assets it scans, which is how
  `group_assets_by_visual_similarity` behaves on every input whose
  per-asset processing succeeds, and the frame-numbering loop of
  `process_asset` is embedded over the list of extracted frame paths
  with an abstract per-frame hasher.
-/

/-- `Asset` record (mod.rs). -/
structure Asset where
  id : String
  name : String
  path : String
  mime_type : String
  is_video : Bool
deriving DecidableEq

/-- `FrameData` record (mod.rs): a frame's ordinal index and its
perceptual hash bytes. -/
structure FrameData where
  frame_number : Nat
  hash : List Nat
deriving DecidableEq

/-- `HashedAsset` record (mod.rs).  `aspect_ratio` is an `f64` that is
computed but never consulted by any embedded operation, so it is not
carried; `width`/`height` are kept. -/
structure HashedAsset where
  asset : Asset
  frames : List FrameData
  width : Nat
  height : Nat
deriving DecidableEq

/-- `AssetGroup` record (mod.rs) minus the `id` field, which is a
freshly generated UUID (nondeterministic) consulted by nothing. -/
structure AssetGroup where
  name : String
  assets : List Asset
deriving DecidableEq

/-- Fuel-driven binary popcount; with fuel `n` it fully evaluates
`popCountAux n n`, since the argument halves each step. -/
def popCountAux : Nat → Nat → Nat
  | 0, _ => 0
  | fuel + 1, n => if n = 0 then 0 else n % 2 + popCountAux fuel (n / 2)

/-- `u8::count_ones` (hash.rs line 68) on a byte embedded as `Nat`. -/
def popCount (n : Nat) : Nat := popCountAux n n

/-- `hamming_distance` (hash.rs lines 60–72): fails (`none`) on
mismatched lengths, otherwise sums the popcounts of bytewise xors. -/
def hamming_distance (h1 h2 : List Nat) : Option Nat :=
  if h1.length = h2.length then
    some (((h1.zip h2).map (fun p => popCount (Nat.xor p.1 p.2))).sum)
  else
    none

/-- `are_assets_visually_similar` (grouping.rs lines 63–101): type
gating, empty-overlap check, then the `for i in 0..min` loop with early
`return false`, embedded as `List.all` over the zip of the two frame
lists (which is exactly the overlapping prefix, in order). -/
def are_assets_visually_similar (a1 a2 : HashedAsset) (threshold : Nat) : Bool :=
  if a1.asset.is_video ≠ a2.asset.is_video then
    false
  else if min a1.frames.length a2.frames.length = 0 then
    false
  else
    (a1.frames.zip a2.frames).all fun p =>
      match hamming_distance p.1.hash p.2.hash with
      | some distance => decide (distance < threshold)
      | none => false

/-- Regex `\s` restricted to the ASCII whitespace the embedding models
(all the inputs the claims mention are ASCII or Latin-1). -/
def rsSpace (c : Char) : Bool :=
  c = ' ' || c = '\t' || c = '\n' || c = '\r' || c = Char.ofNat 11 || c = Char.ofNat 12

/-- Regex class `[_\-\s]`. -/
def sepJoin (c : Char) : Bool := c = '_' || c = '-' || rsSpace c

/-- The literal bytes of the dimension-separator class in grouping.rs
line 199: `:`, `x`, `X`, `w`, and the two mojibake characters
U+221A `√` and U+00F3 `ó` (an encoding corruption of `×`; the
multiplication sign itself is not in the class). -/
def codeSepClass : List Char := [':', 'x', 'X', 'w', '√', 'ó']

/-- The separator class as the spec's words describe it: `:`, `x`, `X`,
or a unicode multiplication-like glyph (`×`). -/
def specSepClass : List Char := [':', 'x', 'X', '×']

/-- Replacement of the first (hence, being `$`-anchored, the leftmost
i.e. longest-suffix) match of
`[_\-\s]*((\d{1,4})\s*SEP\s*(\d{1,4}))$` by the empty string
(grouping.rs lines 199–202), computed by scanning from the end of the
string: the trailing digit run must have length 1–4 and be wholly
consumed; the digit run before the separator contributes its last
`min(len,4)` digits, and the leading `[_\-\s]*` (and hence any further
stripping) only applies when that run was consumed entirely.
`innerWs` selects whether `\s*` is permitted around the separator
(the code's regex permits it). -/
def stripDimWith (seps : List Char) (innerWs : Bool) (cs : List Char) : List Char :=
  let r := cs.reverse
  let d2 := r.takeWhile Char.isDigit
  let r1 := r.dropWhile Char.isDigit
  if d2.length = 0 || 4 < d2.length then cs
  else
    let r2 := if innerWs then r1.dropWhile rsSpace else r1
    match r2 with
    | [] => cs
    | sep :: r3 =>
      if seps.contains sep then
        let r4 := if innerWs then r3.dropWhile rsSpace else r3
        let d1 := r4.takeWhile Char.isDigit
        let r5 := r4.dropWhile Char.isDigit
        if d1.length = 0 then cs
        else if d1.length ≤ 4 then (r5.dropWhile sepJoin).reverse
        else ((d1.drop 4) ++ r5).reverse
      else cs

/-- The platform-format suffix words of grouping.rs line 204, longest
first, so that picking the first suffix match reproduces the leftmost
(longest-suffix) match of the `$`-anchored alternation. -/
def formatWords : List (List Char) :=
  ["horizontal".toList, "vertical".toList, "infeed".toList,
   "square".toList, "story".toList, "post".toList, "feed".toList]

/-- Replacement of the first match of
`(?i)[_\-\s]*(post|story|feed|infeed|square|vertical|horizontal)$` by
the empty string (grouping.rs lines 204–207); case-insensitivity is
modelled by ASCII lowercasing. -/
def stripWordSuffix (cs : List Char) : List Char :=
  let lower := cs.map Char.toLower
  match formatWords.find? (fun w => w.isSuffixOf lower) with
  | some w =>
      let kept := cs.take (cs.length - w.length)
      (kept.reverse.dropWhile sepJoin).reverse
  | none => cs

/-- `str::trim` (grouping.rs line 209) over the modelled whitespace. -/
def trimChars (cs : List Char) : List Char :=
  ((cs.dropWhile rsSpace).reverse.dropWhile rsSpace).reverse

/-- `filename.rsplit_once('.')` keeping the part before the last `.`,
or the whole name when there is none (grouping.rs lines 195–197). -/
def stripExtChars (cs : List Char) : List Char :=
  match cs.reverse.dropWhile (fun c => c ≠ '.') with
  | [] => cs
  | _ :: t => t.reverse

/-- `extract_base_name` (grouping.rs lines 194–210). -/
def extract_base_name (s : String) : String :=
  ⟨trimChars (stripWordSuffix (stripDimWith codeSepClass true (stripExtChars s.toList)))⟩

/-- Modelled from the spec: the name normalizer exactly as claim C7's
words describe it — same steps, but with the dimension separator class
`:`/`x`/`X`/`×` and no whitespace permitted around the separator. -/
def claimed_base_name (s : String) : String :=
  ⟨trimChars (stripWordSuffix (stripDimWith specSepClass false (stripExtChars s.toList)))⟩

/-- The inner `for j in (i+1)..` loop of
`group_assets_by_visual_similarity` (grouping.rs lines 151–179):
collects the later, not-yet-assigned assets similar to the anchor and
threads the `assigned` id set (embedded as a list with membership
semantics).  Returns the collected member assets and the final set. -/
def addMembers (anchor : HashedAsset) (threshold : Nat) :
    List HashedAsset → List String → List Asset × List String
  | [], assigned => ([], assigned)
  | h :: t, assigned =>
    if h.asset.id ∈ assigned then
      addMembers anchor threshold t assigned
    else if are_assets_visually_similar anchor h threshold then
      let r := addMembers anchor threshold t (h.asset.id :: assigned)
      (h.asset :: r.1, r.2)
    else
      addMembers anchor threshold t assigned

/-- The outer `for i in 0..` loop of `group_assets_by_visual_similarity`
(grouping.rs lines 137–182): skip assigned assets, otherwise open a
group anchored on the current asset (group `id` UUID omitted, see
`AssetGroup`) and run the inner loop over the remaining suffix. -/
def buildGroups (threshold : Nat) :
    List HashedAsset → List String → List AssetGroup
  | [], _ => []
  | h :: t, assigned =>
    if h.asset.id ∈ assigned then
      buildGroups threshold t assigned
    else
      let r := addMembers h threshold t (h.asset.id :: assigned)
      { name := extract_base_name h.asset.name,
        assets := h.asset :: r.1 } :: buildGroups threshold t r.2

/-- `group_assets_by_visual_similarity` (grouping.rs lines 104–191) on
the hashed assets obtained from a successfully processed input list:
threshold defaults to 15, the empty input returns the empty group list
(the explicit early return and the loop agree on this), and the
clustering loops run over the hashed assets in input order. -/
def group_assets_by_visual_similarity
    (hashed_assets : List HashedAsset) (threshold : Option Nat) : List AssetGroup :=
  buildGroups (threshold.getD 15) hashed_assets []

/-- The concatenated member ids of the produced groups, in order. -/
def output_member_ids (l : List HashedAsset) (threshold : Option Nat) : List String :=
  ((group_assets_by_visual_similarity l threshold).map
    (fun g => g.assets.map (fun a => a.id))).flatten

/-- The frame-interval selection of `extract_frames_from_video`
(video.rs lines 55–63). -/
def frame_interval (duration : ℚ) : ℚ :=
  if duration = 10 then 3/2
  else if duration ≤ 30 then 3
  else if duration ≤ 60 then 4
  else 5

/-- The `while t < duration { push t; t += interval }` timestamp loop of
`extract_frames_from_video` (video.rs lines 67–72), as a recursion that
terminates because the wrapper only ever passes a positive interval
(the guard carries that fact to make the recursion well founded). -/
def frame_times_go (interval duration t : ℚ) : List ℚ :=
  if h : 0 < interval ∧ t < duration then
    t :: frame_times_go interval duration (t + interval)
  else
    []
termination_by (⌈(duration - t) / interval⌉).toNat
decreasing_by
  have hi : 0 < interval := h.1
  have ht : t < duration := h.2
  have hpos : (0 : ℚ) < (duration - t) / interval := by
    apply div_pos <;> linarith
  have hc : 0 < ⌈(duration - t) / interval⌉ := Int.ceil_pos.mpr hpos
  have he : (duration - (t + interval)) / interval = (duration - t) / interval - 1 := by
    rw [show duration - (t + interval) = duration - t - interval by ring, sub_div,
      div_self (ne_of_gt hi)]
  rw [he, Int.ceil_sub_one]
  omega

/-- The target timestamps for a video of the given duration
(video.rs lines 55–72). -/
def frame_times (duration : ℚ) : List ℚ :=
  frame_times_go (frame_interval duration) duration 0

/-- The hashing loop of `process_asset` (grouping.rs lines 37–45),
over the extracted frame paths with the running `enumerate` index;
`hashOf` abstracts `generate_perceptual_hash`, whose failure aborts the
whole computation. -/
def process_frames_go (hashOf : String → Option (List Nat)) :
    Nat → List String → Option (List FrameData)
  | _, [] => some []
  | idx, p :: ps =>
    match hashOf p with
    | none => none
    | some h =>
      match process_frames_go hashOf (idx + 1) ps with
      | none => none
      | some rest => some ({ frame_number := idx, hash := h } :: rest)

/-- The `frames` list `process_asset` stores in the `HashedAsset`
(grouping.rs lines 37–49). -/
def process_frames (hashOf : String → Option (List Nat))
    (frame_paths : List String) : Option (List FrameData) :=
  process_frames_go hashOf 0 frame_paths

/-! ### Helper lemmas: popcount and hamming distance -/

lemma popCount_zero : popCount 0 = 0 := rfl

lemma zip_self_xor_sum (l : List Nat) :
    ((l.zip l).map (fun p => popCount (Nat.xor p.1 p.2))).sum = 0 := by
  induction l with
  | nil => rfl
  | cons a t ih =>
    have hx : Nat.xor a a = 0 := Nat.xor_self a
    simp [hx, popCount_zero, ih]

lemma hamming_self (h : List Nat) : hamming_distance h h = some 0 := by
  simp [hamming_distance, zip_self_xor_sum h]

lemma zip_xor_sum_comm :
    ∀ (h1 h2 : List Nat),
      ((h1.zip h2).map (fun p => popCount (Nat.xor p.1 p.2))).sum =
        ((h2.zip h1).map (fun p => popCount (Nat.xor p.1 p.2))).sum := by
  intro h1
  induction h1 with
  | nil => intro h2; cases h2 <;> rfl
  | cons a t ih =>
    intro h2
    cases h2 with
    | nil => rfl
    | cons b t2 =>
      have hx : Nat.xor a b = Nat.xor b a := Nat.xor_comm a b
      simp only [List.zip_cons_cons, List.map_cons, List.sum_cons, ih t2, hx]

lemma hamming_comm (h1 h2 : List Nat) :
    hamming_distance h1 h2 = hamming_distance h2 h1 := by
  unfold hamming_distance
  by_cases hl : h1.length = h2.length
  · rw [if_pos hl, if_pos hl.symm, zip_xor_sum_comm]
  · rw [if_neg hl, if_neg (fun h => hl h.symm)]

lemma hamming_none_iff (h1 h2 : List Nat) :
    hamming_distance h1 h2 = none ↔ h1.length ≠ h2.length := by
  unfold hamming_distance
  by_cases hl : h1.length = h2.length
  · simp [hl]
  · simp [hl]

lemma hamming_all_bits_ne (h1 h2 : List Nat)
    (l1 : h1.length = 8) (l2 : h2.length = 8)
    (hx : ∀ p ∈ h1.zip h2, Nat.xor p.1 p.2 = 255) :
    hamming_distance h1 h2 = some 64 := by
  unfold hamming_distance
  rw [if_pos (l1.trans l2.symm)]
  have hlen : ((h1.zip h2).map (fun p => popCount (Nat.xor p.1 p.2))).length = 8 := by
    simp [List.length_zip, l1, l2]
  have hall : ∀ x ∈ (h1.zip h2).map (fun p => popCount (Nat.xor p.1 p.2)), x = 8 := by
    intro x hxm
    obtain ⟨p, hp, hq⟩ := List.mem_map.mp hxm
    rw [← hq, hx p hp]
    rfl
  have hrep := List.eq_replicate_of_mem hall
  rw [hlen] at hrep
  rw [hrep]
  rfl

/-! ### Helper lemmas: similarity comparator -/

lemma similar_type_ne {a b : HashedAsset} (th : Nat)
    (hv : a.asset.is_video ≠ b.asset.is_video) :
    are_assets_visually_similar a b th = false := by
  unfold are_assets_visually_similar
  rw [if_pos hv]

lemma similar_eq_all {a b : HashedAsset} (th : Nat)
    (hv : a.asset.is_video = b.asset.is_video)
    (hn : min a.frames.length b.frames.length ≠ 0) :
    are_assets_visually_similar a b th =
      (a.frames.zip b.frames).all (fun p =>
        match hamming_distance p.1.hash p.2.hash with
        | some distance => decide (distance < th)
        | none => false) := by
  unfold are_assets_visually_similar
  rw [if_neg (by simp [hv]), if_neg hn]

lemma min_frames_ne_zero {a b : HashedAsset} {i : Nat} {f1 f2 : FrameData}
    (h1 : a.frames[i]? = some f1) (h2 : b.frames[i]? = some f2) :
    min a.frames.length b.frames.length ≠ 0 := by
  have hl1 : i < a.frames.length := by
    by_contra hc
    rw [List.getElem?_eq_none (by omega)] at h1
    exact Option.noConfusion h1
  have hl2 : i < b.frames.length := by
    by_contra hc
    rw [List.getElem?_eq_none (by omega)] at h2
    exact Option.noConfusion h2
  omega

lemma similar_false_of_pair {a b : HashedAsset} {th i : Nat} {f1 f2 : FrameData}
    (hv : a.asset.is_video = b.asset.is_video)
    (h1 : a.frames[i]? = some f1) (h2 : b.frames[i]? = some f2)
    (hbad : (match hamming_distance f1.hash f2.hash with
             | some distance => decide (distance < th)
             | none => false) = false) :
    are_assets_visually_similar a b th = false := by
  rw [similar_eq_all th hv (min_frames_ne_zero h1 h2)]
  apply List.all_eq_false.mpr
  refine ⟨(f1, f2), ?_, by simp [hbad]⟩
  exact List.getElem?_mem (List.getElem?_zip_eq_some.mpr ⟨h1, h2⟩)

lemma similar_true_of_all_pairs {a b : HashedAsset} {th : Nat}
    (hv : a.asset.is_video = b.asset.is_video)
    (hn : min a.frames.length b.frames.length ≠ 0)
    (hall : ∀ (i : Nat) (f1 f2 : FrameData),
      a.frames[i]? = some f1 → b.frames[i]? = some f2 →
      ∃ d, hamming_distance f1.hash f2.hash = some d ∧ d < th) :
    are_assets_visually_similar a b th = true := by
  rw [similar_eq_all th hv hn]
  apply List.all_eq_true.mpr
  intro p hp
  obtain ⟨i, hi⟩ := List.getElem?_of_mem hp
  obtain ⟨hp1, hp2⟩ := List.getElem?_zip_eq_some.mp hi
  obtain ⟨d, hd, hdlt⟩ := hall i p.1 p.2 hp1 hp2
  simp [hd, hdlt]

lemma similar_threshold_zero (a b : HashedAsset) :
    are_assets_visually_similar a b 0 = false := by
  by_cases hv : a.asset.is_video ≠ b.asset.is_video
  · exact similar_type_ne 0 hv
  · push_neg at hv
    by_cases hn : min a.frames.length b.frames.length = 0
    · unfold are_assets_visually_similar
      rw [if_neg (by simp [hv]), if_pos hn]
    · have h1 : 0 < a.frames.length := by omega
      have h2 : 0 < b.frames.length := by omega
      obtain ⟨f1, hf1⟩ : ∃ f1, a.frames[0]? = some f1 :=
        ⟨a.frames.get ⟨0, h1⟩, List.getElem?_eq_getElem h1⟩
      obtain ⟨f2, hf2⟩ : ∃ f2, b.frames[0]? = some f2 :=
        ⟨b.frames.get ⟨0, h2⟩, List.getElem?_eq_getElem h2⟩
      apply similar_false_of_pair hv hf1 hf2
      cases hh : hamming_distance f1.hash f2.hash with
      | none => rfl
      | some d => simp

/-! ### Helper lemmas: grouping engine -/

lemma addMembers_snd (anchor : HashedAsset) (th : Nat) :
    ∀ (t : List HashedAsset) (s : List String),
      (addMembers anchor th t s).2 =
        ((addMembers anchor th t s).1.map (fun a => a.id)).reverse ++ s := by
  intro t
  induction t with
  | nil => intro s; rfl
  | cons h t ih =>
    intro s
    simp only [addMembers]
    by_cases hmem : h.asset.id ∈ s
    · rw [if_pos hmem]
      exact ih s
    · rw [if_neg hmem]
      by_cases hsim : are_assets_visually_similar anchor h th = true
      · rw [if_pos hsim]
        have := ih (h.asset.id :: s)
        simp only [this, List.map_cons, List.reverse_cons, List.append_assoc,
          List.singleton_append]
      · rw [if_neg hsim]
        exact ih s

lemma addMembers_fst (anchor : HashedAsset) (th : Nat) :
    ∀ (t : List HashedAsset) (s : List String),
      (t.map (fun x => x.asset.id)).Nodup →
      (addMembers anchor th t s).1 =
        (t.filter (fun x =>
          decide (x.asset.id ∉ s) && are_assets_visually_similar anchor x th)).map
          (fun x => x.asset) := by
  intro t
  induction t with
  | nil => intro s _; rfl
  | cons h t ih =>
    intro s hnd
    rw [List.map_cons, List.nodup_cons] at hnd
    obtain ⟨hh, hnd'⟩ := hnd
    simp only [addMembers]
    by_cases hmem : h.asset.id ∈ s
    · rw [if_pos hmem, List.filter_cons_of_neg (by simp [hmem])]
      exact ih s hnd'
    · rw [if_neg hmem]
      by_cases hsim : are_assets_visually_similar anchor h th = true
      · rw [if_pos hsim, List.filter_cons_of_pos (by simp [hmem, hsim])]
        have heq : (addMembers anchor th t (h.asset.id :: s)).1 =
            (t.filter (fun x =>
              decide (x.asset.id ∉ h.asset.id :: s) &&
                are_assets_visually_similar anchor x th)).map (fun x => x.asset) :=
          ih (h.asset.id :: s) hnd'
        have hfc : t.filter (fun x =>
            decide (x.asset.id ∉ h.asset.id :: s) &&
              are_assets_visually_similar anchor x th) =
            t.filter (fun x =>
              decide (x.asset.id ∉ s) && are_assets_visually_similar anchor x th) := by
          apply List.filter_congr
          intro x hx
          have hxne : x.asset.id ≠ h.asset.id := by
            intro hcon
            exact hh (hcon ▸ List.mem_map_of_mem (fun y => y.asset.id) hx)
          simp [List.mem_cons, hxne]
        simp only [List.map_cons, heq, hfc]
      · rw [if_neg hsim, List.filter_cons_of_neg (by simp [hsim])]
        exact ih s hnd'

lemma buildGroups_anchors (th : Nat) :
    ∀ (l : List HashedAsset) (s : List String),
      ((buildGroups th l s).filterMap (fun g => g.assets.head?)).Sublist
        (l.map (fun x => x.asset)) := by
  intro l
  induction l with
  | nil => intro s; simp [buildGroups]
  | cons h t ih =>
    intro s
    simp only [buildGroups]
    by_cases hmem : h.asset.id ∈ s
    · rw [if_pos hmem, List.map_cons]
      exact (ih s).cons h.asset
    · rw [if_neg hmem, List.map_cons]
      simp only [List.filterMap_cons, List.head?_cons]
      exact (ih _).cons₂ h.asset

lemma mem_map_asset_id_filter {t : List HashedAsset} {q : HashedAsset → Bool}
    (hnd : (t.map (fun x => x.asset.id)).Nodup) {x : HashedAsset} (hx : x ∈ t) :
    (x.asset.id ∈ (t.filter q).map (fun y => y.asset.id)) ↔ q x = true := by
  constructor
  · intro hmem
    obtain ⟨y, hy, hyx⟩ := List.mem_map.mp hmem
    rw [List.mem_filter] at hy
    have : y = x := List.inj_on_of_nodup_map hnd hy.1 hx hyx
    exact this ▸ hy.2
  · intro hq
    exact List.mem_map_of_mem (fun y => y.asset.id) (List.mem_filter.mpr ⟨hx, hq⟩)

lemma filter_split_perm {t : List HashedAsset} (p q : HashedAsset → Bool) :
    List.Perm
      ((t.filter (fun x => p x && q x)).map (fun x => x.asset.id) ++
        (t.filter (fun x => p x && !q x)).map (fun x => x.asset.id))
      ((t.filter p).map (fun x => x.asset.id)) := by
  have h1 : t.filter (fun x => p x && q x) = (t.filter p).filter q := by
    rw [List.filter_filter]
    exact List.filter_congr (fun x _ => Bool.and_comm (p x) (q x))
  have h2 : t.filter (fun x => p x && !q x) = (t.filter p).filter (fun x => !q x) := by
    rw [List.filter_filter]
    exact List.filter_congr (fun x _ => Bool.and_comm (p x) (!q x))
  rw [h1, h2, ← List.map_append]
  exact (List.filter_append_perm q (t.filter p)).map (fun x => x.asset.id)

lemma buildGroups_perm (th : Nat) :
    ∀ (l : List HashedAsset) (s : List String),
      (l.map (fun x => x.asset.id)).Nodup →
      List.Perm
        ((buildGroups th l s).map (fun g => g.assets.map (fun a => a.id))).flatten
        ((l.filter (fun x => decide (x.asset.id ∉ s))).map (fun x => x.asset.id)) := by
  intro l
  induction l with
  | nil => intro s _; simp [buildGroups]
  | cons h t ih =>
    intro s hnd
    have hnd0 := hnd
    rw [List.map_cons, List.nodup_cons] at hnd0
    obtain ⟨hh, hnd'⟩ := hnd0
    simp only [buildGroups]
    by_cases hmem : h.asset.id ∈ s
    · rw [if_pos hmem, List.filter_cons_of_neg (by simp [hmem])]
      exact ih s hnd'
    · rw [if_neg hmem, List.filter_cons_of_pos (by simp [hmem])]
      have hms := addMembers_fst h th t (h.asset.id :: s) hnd'
      have hsnd := addMembers_snd h th t (h.asset.id :: s)
      -- the inner-loop predicate over `t` does not depend on the anchor id
      have hfc : t.filter (fun x =>
          decide (x.asset.id ∉ h.asset.id :: s) &&
            are_assets_visually_similar h x th) =
          t.filter (fun x =>
            decide (x.asset.id ∉ s) && are_assets_visually_similar h x th) := by
        apply List.filter_congr
        intro x hx
        have hxne : x.asset.id ≠ h.asset.id := by
          intro hcon
          exact hh (hcon ▸ List.mem_map_of_mem (fun y => y.asset.id) hx)
        simp [List.mem_cons, hxne]
      rw [hfc] at hms
      set P : HashedAsset → Bool := fun x => decide (x.asset.id ∉ s) with hP
      set Q : HashedAsset → Bool := fun x => are_assets_visually_similar h x th with hQ
      set r := addMembers h th t (h.asset.id :: s) with hr
      -- membership in the assigned set after the inner loop, as a Bool equation
      have hmemr2 : ∀ x ∈ t,
          (decide (x.asset.id ∉ r.2) : Bool) = (P x && !Q x) := by
        intro x hx
        have hxne : x.asset.id ≠ h.asset.id := by
          intro hcon
          exact hh (hcon ▸ List.mem_map_of_mem (fun y => y.asset.id) hx)
        have hmsmem : (x.asset.id ∈ r.1.map (fun a => a.id)) ↔ (P x && Q x) = true := by
          rw [hms, List.map_map]
          exact mem_map_asset_id_filter hnd' hx
        have hr2mem : x.asset.id ∈ r.2 ↔ ((P x && Q x) = true ∨ x.asset.id ∈ s) := by
          rw [hsnd]
          simp only [List.mem_append, List.mem_reverse, List.mem_cons]
          constructor
          · rintro (hq | (hid | hs))
            · exact Or.inl (hmsmem.mp hq)
            · exact absurd hid hxne
            · exact Or.inr hs
          · rintro (hq | hs)
            · exact Or.inl (hmsmem.mpr hq)
            · exact Or.inr (Or.inr hs)
        by_cases hPx : x.asset.id ∈ s
        · have hPf : P x = false := by simp [hP, hPx]
          have hin : x.asset.id ∈ r.2 := hr2mem.mpr (Or.inr hPx)
          simp [hin, hPf]
        · have hPT : P x = true := by simp [hP, hPx]
          by_cases hQx : Q x = true
          · have hin : x.asset.id ∈ r.2 := hr2mem.mpr (Or.inl (by simp [hPT, hQx]))
            simp [hin, hPT, hQx]
          · have hnin : x.asset.id ∉ r.2 := by
              intro hin
              rcases hr2mem.mp hin with hq | hs
              · rw [Bool.and_eq_true] at hq
                exact hQx hq.2
              · exact hPx hs
            simp [hnin, hPT, hQx]
      have hih := ih r.2 hnd'
      rw [List.filter_congr hmemr2] at hih
      simp only [List.map_cons, List.flatten_cons, List.cons_append]
      apply List.Perm.cons
      have hx1 : r.1.map (fun a => a.id) =
          (t.filter (fun x => P x && Q x)).map (fun x => x.asset.id) := by
        rw [hms, List.map_map]
        rfl
      rw [hx1]
      exact (List.Perm.append_left _ hih).trans (filter_split_perm P Q)

lemma buildGroups_zero :
    ∀ (l : List HashedAsset) (s : List String),
      (l.map (fun x => x.asset.id)).Nodup →
      (∀ x ∈ l, x.asset.id ∉ s) →
      buildGroups 0 l s =
        l.map (fun h => { name := extract_base_name h.asset.name,
                          assets := [h.asset] }) := by
  intro l
  induction l with
  | nil => intro s _ _; rfl
  | cons h t ih =>
    intro s hnd hdis
    rw [List.map_cons, List.nodup_cons] at hnd
    obtain ⟨hh, hnd'⟩ := hnd
    simp only [buildGroups]
    rw [if_neg (hdis h (List.mem_cons_self h t))]
    have hms := addMembers_fst h 0 t (h.asset.id :: s) hnd'
    have hfe : t.filter (fun x =>
        decide (x.asset.id ∉ h.asset.id :: s) &&
          are_assets_visually_similar h x 0) = [] := by
      rw [List.filter_eq_nil_iff]
      intro x _
      simp [similar_threshold_zero h x]
    rw [hfe] at hms
    have hsnd := addMembers_snd h 0 t (h.asset.id :: s)
    rw [hms] at hsnd
    simp only [List.map_nil, List.reverse_nil, List.nil_append] at hsnd
    rw [List.map_cons]
    have hrec : buildGroups 0 t (addMembers h 0 t (h.asset.id :: s)).2 =
        t.map (fun h => { name := extract_base_name h.asset.name,
                          assets := [h.asset] }) := by
      rw [hsnd]
      apply ih (h.asset.id :: s) hnd'
      intro x hx
      rw [List.mem_cons]
      rintro (hc | hc)
      · exact hh (hc ▸ List.mem_map_of_mem (fun y => y.asset.id) hx)
      · exact hdis x (List.mem_cons_of_mem h hx) hc
    rw [hms, hrec]
    simp

/-! ### Helper lemmas: frame sampling -/

lemma frame_interval_pos (d : ℚ) : 0 < frame_interval d := by
  unfold frame_interval
  split <;> norm_num
  split <;> norm_num
  split <;> norm_num

lemma frame_times_go_shape (interval duration : ℚ) :
    ∀ t : ℚ, frame_times_go interval duration t =
      (List.range (frame_times_go interval duration t).length).map
        (fun k : ℕ => t + (k : ℚ) * interval) := by
  intro t
  induction t using frame_times_go.induct interval duration with
  | case1 t h iht =>
    have hstep : frame_times_go interval duration t =
        t :: frame_times_go interval duration (t + interval) := by
      rw [frame_times_go]
      exact dif_pos h
    rw [hstep, List.length_cons, List.range_succ_eq_map, List.map_cons, List.map_map]
    congr 1
    · norm_num
    · rw [iht]
      simp only [List.length_map, List.length_range]
      apply List.map_congr_left
      rintro k -
      simp only [Function.comp_apply]
      push_cast
      ring
  | case2 t h =>
    have hstep : frame_times_go interval duration t = [] := by
      rw [frame_times_go]
      exact dif_neg h
    rw [hstep]
    rfl

lemma frame_times_go_lt (interval duration : ℚ) :
    ∀ t : ℚ, ∀ x ∈ frame_times_go interval duration t, x < duration := by
  intro t
  induction t using frame_times_go.induct interval duration with
  | case1 t h iht =>
    have hstep : frame_times_go interval duration t =
        t :: frame_times_go interval duration (t + interval) := by
      rw [frame_times_go]
      exact dif_pos h
    rw [hstep]
    intro x hx
    rcases List.mem_cons.mp hx with hx | hx
    · exact hx ▸ h.2
    · exact iht x hx
  | case2 t h =>
    have hstep : frame_times_go interval duration t = [] := by
      rw [frame_times_go]
      exact dif_neg h
    rw [hstep]
    intro x hx
    exact absurd hx (List.not_mem_nil x)

lemma frame_times_go_complete (interval duration : ℚ) (hi : 0 < interval) :
    ∀ t : ℚ, ∀ k : ℕ, t + (k : ℚ) * interval < duration →
      k < (frame_times_go interval duration t).length := by
  intro t
  induction t using frame_times_go.induct interval duration with
  | case1 t h iht =>
    have hstep : frame_times_go interval duration t =
        t :: frame_times_go interval duration (t + interval) := by
      rw [frame_times_go]
      exact dif_pos h
    rw [hstep, List.length_cons]
    intro k hk
    cases k with
    | zero => omega
    | succ k =>
      have hk' : (t + interval) + (k : ℚ) * interval < duration := by
        push_cast at hk
        linarith [hk]
      have := iht k hk'
      omega
  | case2 t h =>
    intro k hk
    exfalso
    have hnd : ¬ t < duration := by
      intro hc
      exact h ⟨hi, hc⟩
    have : (0 : ℚ) ≤ (k : ℚ) * interval :=
      mul_nonneg (Nat.cast_nonneg k) (le_of_lt hi)
    linarith

lemma frame_times_head (duration : ℚ) (hd : 0 < duration) :
    (frame_times duration).head? = some 0 := by
  unfold frame_times
  rw [frame_times_go]
  rw [dif_pos ⟨frame_interval_pos duration, hd⟩]
  rfl

/-! ### Helper lemmas: frame numbering -/

lemma process_frames_go_spec (hashOf : String → Option (List Nat)) :
    ∀ (ps : List String) (i : Nat) (fs : List FrameData),
      process_frames_go hashOf i ps = some fs →
      fs.map (fun f => f.frame_number) = (List.range ps.length).map (fun k => i + k) := by
  intro ps
  induction ps with
  | nil =>
    intro i fs hfs
    simp only [process_frames_go] at hfs
    cases hfs
    rfl
  | cons p ps ih =>
    intro i fs hfs
    simp only [process_frames_go] at hfs
    cases hh : hashOf p with
    | none => rw [hh] at hfs; exact Option.noConfusion hfs
    | some hbytes =>
      rw [hh] at hfs
      cases hrec : process_frames_go hashOf (i + 1) ps with
      | none => rw [hrec] at hfs; exact Option.noConfusion hfs
      | some rest =>
        rw [hrec] at hfs
        cases hfs
        have := ih (i + 1) rest hrec
        simp only [List.map_cons, List.length_cons, List.range_succ_eq_map,
          List.map_map, this]
        congr 1
        apply List.map_congr_left
        rintro k -
        simp only [Function.comp_apply]
        omega

/-! ### Claim theorems -/

/-- C3: for every pair of hashed assets whose `is_video` flags differ,
the similarity comparator returns false regardless of the frame hashes
(including identical hash bytes) and regardless of the threshold. -/
theorem video_image_type_gating (a b : HashedAsset) (th : Nat)
    (hv : a.asset.is_video ≠ b.asset.is_video) :
    are_assets_visually_similar a b th = false :=
  similar_type_ne th hv

/-- Witness for C3: an image and a video with byte-identical single-frame
hashes are not similar at the default threshold. -/
theorem video_image_type_gating_witness :
    ((⟨⟨"i1", "pic", "p", "image/png", false⟩, [⟨0, [7, 7, 7, 7, 7, 7, 7, 7]⟩], 1, 1⟩ :
        HashedAsset).asset.is_video ≠
      (⟨⟨"v1", "vid", "q", "video/mp4", true⟩, [⟨0, [7, 7, 7, 7, 7, 7, 7, 7]⟩], 1, 1⟩ :
        HashedAsset).asset.is_video) ∧
    are_assets_visually_similar
      ⟨⟨"i1", "pic", "p", "image/png", false⟩, [⟨0, [7, 7, 7, 7, 7, 7, 7, 7]⟩], 1, 1⟩
      ⟨⟨"v1", "vid", "q", "video/mp4", true⟩, [⟨0, [7, 7, 7, 7, 7, 7, 7, 7]⟩], 1, 1⟩
      15 = false :=
  ⟨by decide, video_image_type_gating _ _ 15 (by decide)⟩

/-- C4: the similarity decision is strictly below threshold: a pair of
same-type assets with an overlapping frame whose hamming distance equals
the threshold is not similar, and if every overlapping per-frame
distance is at most threshold − 1 the pair is similar. -/
theorem threshold_boundary_strict :
    (∀ (a b : HashedAsset) (th i : Nat) (f1 f2 : FrameData),
      a.asset.is_video = b.asset.is_video →
      a.frames[i]? = some f1 → b.frames[i]? = some f2 →
      hamming_distance f1.hash f2.hash = some th →
      are_assets_visually_similar a b th = false) ∧
    (∀ (a b : HashedAsset) (th : Nat),
      a.asset.is_video = b.asset.is_video →
      min a.frames.length b.frames.length ≠ 0 →
      (∀ (i : Nat) (f1 f2 : FrameData),
        a.frames[i]? = some f1 → b.frames[i]? = some f2 →
        ∃ d, hamming_distance f1.hash f2.hash = some d ∧ d + 1 ≤ th) →
      are_assets_visually_similar a b th = true) := by
  constructor
  · intro a b th i f1 f2 hv h1 h2 hd
    apply similar_false_of_pair hv h1 h2
    rw [hd]
    simp
  · intro a b th hv hn hall
    apply similar_true_of_all_pairs hv hn
    intro i f1 f2 h1 h2
    obtain ⟨d, hd, hle⟩ := hall i f1 f2 h1 h2
    exact ⟨d, hd, by omega⟩

/-- Witness for C4: at threshold 15, a frame pair at distance exactly 15
is not similar, and one at distance 14 is similar. -/
theorem threshold_boundary_strict_witness :
    are_assets_visually_similar
      ⟨⟨"a", "a", "", "", false⟩, [⟨0, [255, 127]⟩], 1, 1⟩
      ⟨⟨"b", "b", "", "", false⟩, [⟨0, [0, 0]⟩], 1, 1⟩ 15 = false ∧
    are_assets_visually_similar
      ⟨⟨"a", "a", "", "", false⟩, [⟨0, [255, 63]⟩], 1, 1⟩
      ⟨⟨"b", "b", "", "", false⟩, [⟨0, [0, 0]⟩], 1, 1⟩ 15 = true := by
  constructor
  · exact threshold_boundary_strict.1 _ _ 15 0 ⟨0, [255, 127]⟩ ⟨0, [0, 0]⟩ rfl
      (by decide) (by decide) (by decide)
  · apply threshold_boundary_strict.2
      ⟨⟨"a", "a", "", "", false⟩, [⟨0, [255, 63]⟩], 1, 1⟩
      ⟨⟨"b", "b", "", "", false⟩, [⟨0, [0, 0]⟩], 1, 1⟩ 15 rfl (by decide)
    intro i f1 f2 h1 h2
    cases i with
    | zero =>
      simp only [List.getElem?_cons_zero, Option.some.injEq] at h1 h2
      subst h1
      subst h2
      exact ⟨14, by decide, by decide⟩
    | succ i =>
      simp at h1
  
/-- C5: hamming distance is zero on identical hashes, symmetric, and
equals 64 on two 8-byte hashes differing in every bit. -/
theorem hamming_distance_props :
    (∀ h : List Nat, hamming_distance h h = some 0) ∧
    (∀ h1 h2 : List Nat, hamming_distance h1 h2 = hamming_distance h2 h1) ∧
    (∀ h1 h2 : List Nat, h1.length = 8 → h2.length = 8 →
      (∀ p ∈ h1.zip h2, Nat.xor p.1 p.2 = 255) →
      hamming_distance h1 h2 = some 64) :=
  ⟨hamming_self, hamming_comm, hamming_all_bits_ne⟩

/-- Witness for C5: the all-bits-differ case evaluated on the all-zeros
and all-ones 8-byte hashes. -/
theorem hamming_distance_props_witness :
    hamming_distance [255, 255, 255, 255, 255, 255, 255, 255]
      [0, 0, 0, 0, 0, 0, 0, 0] = some 64 :=
  hamming_distance_props.2.2 _ _ rfl rfl (by decide)

/-- C8: mismatched hash byte lengths make `hamming_distance` fail, and
the comparator downgrades that failure to a boolean "not similar"
instead of propagating an error. -/
theorem mismatched_hash_length_not_similar :
    (∀ h1 h2 : List Nat, hamming_distance h1 h2 = none ↔ h1.length ≠ h2.length) ∧
    (∀ (a b : HashedAsset) (th i : Nat) (f1 f2 : FrameData),
      a.asset.is_video = b.asset.is_video →
      a.frames[i]? = some f1 → b.frames[i]? = some f2 →
      f1.hash.length ≠ f2.hash.length →
      are_assets_visually_similar a b th = false) := by
  constructor
  · exact hamming_none_iff
  · intro a b th i f1 f2 hv h1 h2 hlen
    apply similar_false_of_pair hv h1 h2
    rw [(hamming_none_iff f1.hash f2.hash).mpr hlen]

/-- Witness for C8: a 1-byte hash against a 2-byte hash yields a failed
distance and a non-similar verdict rather than an error. -/
theorem mismatched_hash_length_not_similar_witness :
    hamming_distance [0] [0, 0] = none ∧
    are_assets_visually_similar
      ⟨⟨"a", "a", "", "", false⟩, [⟨0, [0]⟩], 1, 1⟩
      ⟨⟨"b", "b", "", "", false⟩, [⟨0, [0, 0]⟩], 1, 1⟩ 15 = false :=
  ⟨(mismatched_hash_length_not_similar.1 [0] [0, 0]).mpr (by decide),
   mismatched_hash_length_not_similar.2 _ _ 15 0 ⟨0, [0]⟩ ⟨0, [0, 0]⟩ rfl
     (by decide) (by decide) (by decide)⟩

/-- C9: with threshold 0 the comparator returns false for every pair
(`0 ≤ distance` always holds, and the empty-overlap and type-gate
branches also return false), so grouping with threshold 0 puts every
asset of a distinct-id input in its own singleton group. -/
theorem threshold_zero_all_singletons :
    (∀ a b : HashedAsset, are_assets_visually_similar a b 0 = false) ∧
    (∀ l : List HashedAsset, (l.map (fun x => x.asset.id)).Nodup →
      group_assets_by_visual_similarity l (some 0) =
        l.map (fun h => { name := extract_base_name h.asset.name,
                          assets := [h.asset] })) := by
  constructor
  · exact similar_threshold_zero
  · intro l hnd
    unfold group_assets_by_visual_similarity
    simp only [Option.getD_some]
    apply buildGroups_zero l [] hnd
    intro x _
    exact List.not_mem_nil x.asset.id

/-- Witness for C9: two byte-identical single-frame assets, and an asset
against itself, are not similar at threshold 0; grouping them at
threshold 0 yields two singleton groups. -/
theorem threshold_zero_all_singletons_witness :
    are_assets_visually_similar
      ⟨⟨"a", "a", "", "", false⟩, [⟨0, [9]⟩], 1, 1⟩
      ⟨⟨"a", "a", "", "", false⟩, [⟨0, [9]⟩], 1, 1⟩ 0 = false ∧
    group_assets_by_visual_similarity
      [⟨⟨"a", "a", "", "", false⟩, [⟨0, [9]⟩], 1, 1⟩,
       ⟨⟨"b", "b", "", "", false⟩, [⟨0, [9]⟩], 1, 1⟩] (some 0) =
      ([⟨⟨"a", "a", "", "", false⟩, [⟨0, [9]⟩], 1, 1⟩,
        ⟨⟨"b", "b", "", "", false⟩, [⟨0, [9]⟩], 1, 1⟩] : List HashedAsset).map
        (fun h => { name := extract_base_name h.asset.name, assets := [h.asset] }) :=
  ⟨threshold_zero_all_singletons.1 _ _,
   threshold_zero_all_singletons.2 _ (by decide)⟩

/-- C1: on a distinct-id input whose processing succeeded, the output
groups partition the input: every input asset id appears in the
concatenated group memberships with multiplicity exactly one, the union
of memberships equals the input id set, and the empty input yields an
empty group sequence without error. -/
theorem grouping_partition (l : List HashedAsset) (threshold : Option Nat)
    (hnd : (l.map (fun x => x.asset.id)).Nodup) :
    (∀ x, x ∈ output_member_ids l threshold ↔ x ∈ l.map (fun a => a.asset.id)) ∧
    (∀ x ∈ l.map (fun a => a.asset.id), (output_member_ids l threshold).count x = 1) ∧
    group_assets_by_visual_similarity [] threshold = [] := by
  have hperm := buildGroups_perm (threshold.getD 15) l [] hnd
  have hfe : l.filter (fun x => decide (x.asset.id ∉ ([] : List String))) = l := by
    apply List.filter_eq_self.mpr
    intro x _
    simp
  rw [hfe] at hperm
  have hperm' : List.Perm (output_member_ids l threshold)
      (l.map (fun a => a.asset.id)) := hperm
  refine ⟨fun x => hperm'.mem_iff, ?_, rfl⟩
  intro x hx
  rw [hperm'.count_eq x]
  exact List.count_eq_one_of_mem hnd hx

/-- Witness for C1: two distinct-id single-frame assets. -/
theorem grouping_partition_witness :
    (([⟨⟨"a1", "n1", "p1", "m1", false⟩, [⟨0, [0]⟩], 1, 1⟩,
       ⟨⟨"a2", "n2", "p2", "m2", false⟩, [⟨0, [255]⟩], 1, 1⟩] : List HashedAsset).map
        (fun x => x.asset.id)).Nodup ∧
    ((∀ x, x ∈ output_member_ids
        [⟨⟨"a1", "n1", "p1", "m1", false⟩, [⟨0, [0]⟩], 1, 1⟩,
         ⟨⟨"a2", "n2", "p2", "m2", false⟩, [⟨0, [255]⟩], 1, 1⟩] none ↔
      x ∈ ([⟨⟨"a1", "n1", "p1", "m1", false⟩, [⟨0, [0]⟩], 1, 1⟩,
            ⟨⟨"a2", "n2", "p2", "m2", false⟩, [⟨0, [255]⟩], 1, 1⟩] :
              List HashedAsset).map (fun a => a.asset.id)) ∧
     (∀ x ∈ ([⟨⟨"a1", "n1", "p1", "m1", false⟩, [⟨0, [0]⟩], 1, 1⟩,
              ⟨⟨"a2", "n2", "p2", "m2", false⟩, [⟨0, [255]⟩], 1, 1⟩] :
                List HashedAsset).map (fun a => a.asset.id),
       (output_member_ids
         [⟨⟨"a1", "n1", "p1", "m1", false⟩, [⟨0, [0]⟩], 1, 1⟩,
          ⟨⟨"a2", "n2", "p2", "m2", false⟩, [⟨0, [255]⟩], 1, 1⟩] none).count x = 1) ∧
     group_assets_by_visual_similarity [] none = []) :=
  ⟨by decide, grouping_partition _ none (by decide)⟩

/-- C2: the grouping engine scans in input order, anchors each group on
the first unassigned asset, joins a later asset iff it is similar to the
anchor (never merely to another member): with A~B, B~C, A≁C the result
is the two groups `[A, B]` and `[C]`; and in general the sequence of
group anchors is a subsequence of the input, so group order mirrors the
order anchors were first encountered. -/
theorem greedy_anchor_scenario :
    (∀ (a b c : HashedAsset) (th : Nat),
      [a.asset.id, b.asset.id, c.asset.id].Nodup →
      are_assets_visually_similar a b th = true →
      are_assets_visually_similar b c th = true →
      are_assets_visually_similar a c th = false →
      group_assets_by_visual_similarity [a, b, c] (some th) =
        [{ name := extract_base_name a.asset.name, assets := [a.asset, b.asset] },
         { name := extract_base_name c.asset.name, assets := [c.asset] }]) ∧
    (∀ (th : Nat) (l : List HashedAsset),
      ((buildGroups th l []).filterMap (fun g => g.assets.head?)).Sublist
        (l.map (fun x => x.asset))) := by
  constructor
  · intro a b c th hnd hab hbc hac
    simp only [List.nodup_cons, List.mem_cons, List.mem_singleton,
      List.not_mem_nil, or_false, not_or, List.nodup_nil, and_true] at hnd
    obtain ⟨⟨hab', hac'⟩, hbc', -⟩ := hnd
    have hba : ¬ b.asset.id = a.asset.id := fun h => hab' h.symm
    have hca : ¬ c.asset.id = a.asset.id := fun h => hac' h.symm
    have hcb : ¬ c.asset.id = b.asset.id := fun h => hbc' h.symm
    simp [group_assets_by_visual_similarity, buildGroups, addMembers,
      hab, hac, hba, hca, hcb]
  · intro th l
    exact buildGroups_anchors th l []

/-- Witness for C2: three concrete image assets with pairwise distances
8 (A,B), 8 (B,C), 16 (A,C) at threshold 15 produce groups `[A, B]` and
`[C]`, in that order. -/
theorem greedy_anchor_scenario_witness :
    group_assets_by_visual_similarity
      [⟨⟨"A", "A", "", "", false⟩, [⟨0, [0, 0]⟩], 1, 1⟩,
       ⟨⟨"B", "B", "", "", false⟩, [⟨0, [255, 0]⟩], 1, 1⟩,
       ⟨⟨"C", "C", "", "", false⟩, [⟨0, [255, 255]⟩], 1, 1⟩] (some 15) =
      [{ name := extract_base_name "A",
         assets := [⟨"A", "A", "", "", false⟩, ⟨"B", "B", "", "", false⟩] },
       { name := extract_base_name "C", assets := [⟨"C", "C", "", "", false⟩] }] :=
  greedy_anchor_scenario.1
    ⟨⟨"A", "A", "", "", false⟩, [⟨0, [0, 0]⟩], 1, 1⟩
    ⟨⟨"B", "B", "", "", false⟩, [⟨0, [255, 0]⟩], 1, 1⟩
    ⟨⟨"C", "C", "", "", false⟩, [⟨0, [255, 255]⟩], 1, 1⟩ 15
    (by decide) (by decide) (by decide) (by decide)

/-- C6: interval selection — exactly 10.0 gives 1.5, otherwise ≤ 30
gives 3, ≤ 60 gives 4, longer gives 5 (so 10.0001 gives 3 and 30.0001
gives 4) — and the target timestamps are 0, i, 2i, … for as long as
strictly less than the duration, so every positive duration yields at
least the timestamp 0. -/
theorem frame_sampling_policy :
    frame_interval 10 = 3/2 ∧
    (∀ d : ℚ, d ≠ 10 → d ≤ 30 → frame_interval d = 3) ∧
    (∀ d : ℚ, 30 < d → d ≤ 60 → frame_interval d = 4) ∧
    (∀ d : ℚ, 60 < d → frame_interval d = 5) ∧
    frame_interval (100001/10000) = 3 ∧
    frame_interval (300001/10000) = 4 ∧
    (∀ d : ℚ, frame_times d =
      (List.range (frame_times d).length).map
        (fun k : ℕ => (k : ℚ) * frame_interval d)) ∧
    (∀ d : ℚ, ∀ x ∈ frame_times d, x < d) ∧
    (∀ (d : ℚ) (k : ℕ), (k : ℚ) * frame_interval d < d →
      k < (frame_times d).length) ∧
    (∀ d : ℚ, 0 < d → (frame_times d).head? = some 0) := by
  refine ⟨?_, ?_, ?_, ?_, ?_, ?_, ?_, ?_, ?_, ?_⟩
  · simp [frame_interval]
  · intro d hne hle
    unfold frame_interval
    rw [if_neg hne, if_pos hle]
  · intro d hgt hle
    unfold frame_interval
    rw [if_neg (by intro hc; rw [hc] at hgt; norm_num at hgt),
      if_neg (by linarith), if_pos hle]
  · intro d hgt
    unfold frame_interval
    rw [if_neg (by intro hc; rw [hc] at hgt; norm_num at hgt),
      if_neg (by linarith), if_neg (by linarith)]
  · unfold frame_interval
    rw [if_neg (by norm_num), if_pos (by norm_num)]
  · unfold frame_interval
    rw [if_neg (by norm_num), if_neg (by norm_num), if_pos (by norm_num)]
  · intro d
    have := frame_times_go_shape (frame_interval d) d 0
    unfold frame_times
    simp only [zero_add] at this
    exact this
  · intro d
    exact frame_times_go_lt (frame_interval d) d 0
  · intro d k hk
    apply frame_times_go_complete (frame_interval d) d (frame_interval_pos d) 0 k
    rw [zero_add]
    exact hk
  · exact frame_times_head

/-- Witness for C6: concrete durations in each interval band, a positive
duration with head timestamp 0, and a concrete in-range multiple. -/
theorem frame_sampling_policy_witness :
    frame_interval 7 = 3 ∧ frame_interval 45 = 4 ∧ frame_interval 100 = 5 ∧
    (frame_times 5).head? = some 0 ∧ 0 < (frame_times 5).length :=
  ⟨frame_sampling_policy.2.1 7 (by norm_num) (by norm_num),
   frame_sampling_policy.2.2.1 45 (by norm_num) (by norm_num),
   frame_sampling_policy.2.2.2.1 100 (by norm_num),
   frame_sampling_policy.2.2.2.2.2.2.2.2.2 5 (by norm_num),
   frame_sampling_policy.2.2.2.2.2.2.2.2.1 5 0 (by norm_num)⟩

/-- C7 (counterexample): the claim describes the dimension separator
class as `:`/`x`/`X`/multiplication glyph, but the code's regex class
(grouping.rs line 199) literally contains `w` (and the two mojibake
characters `√`, `ó` rather than `×`), so the code and the claimed
normalizer disagree on `"a_12w34.png"`: the code strips `_12w34`
(result `"a"`), the claimed steps strip nothing (result `"a_12w34"`). -/
theorem name_normalizer_claim_counterexample :
    extract_base_name "a_12w34.png" ≠ claimed_base_name "a_12w34.png" ∧
    extract_base_name "a_12w34.png" = "a" ∧
    claimed_base_name "a_12w34.png" = "a_12w34" := by
  refine ⟨by decide, by decide, by decide⟩

/-- C7 (amended): the normalizer applies, once each in order: strip the
text after the final `.`; strip a trailing dimension token of optional
`_`/`-`/whitespace separators, up to 4 digits, optional whitespace, a
separator character among `:`, `x`, `X`, `w`, `√`, `ó` (the latter two
being the mojibake bytes committed in place of `×`, which itself is NOT
accepted), optional whitespace, and up to 4 digits; strip a trailing
case-insensitive platform token; trim whitespace — a step leaves the
string unchanged when its pattern does not match — giving the four
spec examples plus the `w`/`√`/`×`/inner-whitespace behaviors. -/
theorem name_normalizer_amended :
    (∀ s : String, extract_base_name s =
      ⟨trimChars (stripWordSuffix
        (stripDimWith codeSepClass true (stripExtChars s.toList)))⟩) ∧
    extract_base_name "creative_1920x1080.mp4" = "creative" ∧
    extract_base_name "banner_post.jpg" = "banner" ∧
    extract_base_name "ad.png" = "ad" ∧
    extract_base_name "summer_sale_square.png" = "summer_sale" ∧
    extract_base_name "a_12w34.png" = "a" ∧
    extract_base_name "a_12√34.png" = "a" ∧
    extract_base_name "a_12×34.png" = "a_12×34" ∧
    extract_base_name "a_12 x 34.png" = "a" :=
  ⟨fun _ => rfl, by decide, by decide, by decide, by decide, by decide,
   by decide, by decide, by decide⟩

/-- C10: for a successfully processed asset, the stored frames carry
contiguous frame numbers: `frames[k].frame_number = k` for every `k`,
with one entry per extracted frame path and no gaps. -/
theorem frame_numbers_sequential
    (hashOf : String → Option (List Nat)) (paths : List String)
    (frames : List FrameData)
    (h : process_frames hashOf paths = some frames) :
    frames.length = paths.length ∧
    frames.map (fun f => f.frame_number) = List.range frames.length ∧
    (∀ (k : Nat) (f : FrameData), frames[k]? = some f → f.frame_number = k) := by
  have hspec := process_frames_go_spec hashOf paths 0 frames h
  have hlen : frames.length = paths.length := by
    have hl := congrArg List.length hspec
    simpa using hl
  have hmap : frames.map (fun f => f.frame_number) = List.range frames.length := by
    rw [hspec, hlen]
    simp
  refine ⟨hlen, hmap, ?_⟩
  intro k f hk
  have hkr : k < frames.length := by
    by_contra hc
    rw [List.getElem?_eq_none (by omega)] at hk
    exact Option.noConfusion hk
  have h1 : (frames.map (fun f => f.frame_number))[k]? = some f.frame_number := by
    rw [List.getElem?_map, hk]
    rfl
  rw [hmap, List.getElem?_range hkr] at h1
  exact (Option.some.injEq _ _ ▸ h1).symm

/-- Witness for C10: a three-path extraction with a constant hasher
yields frame numbers 0, 1, 2. -/
theorem frame_numbers_sequential_witness :
    process_frames (fun _ => some [5]) ["f0", "f1", "f2"] =
      some [⟨0, [5]⟩, ⟨1, [5]⟩, ⟨2, [5]⟩] ∧
    ([⟨0, [5]⟩, ⟨1, [5]⟩, ⟨2, [5]⟩] : List FrameData).length =
      (["f0", "f1", "f2"] : List String).length ∧
    ([⟨0, [5]⟩, ⟨1, [5]⟩, ⟨2, [5]⟩] : List FrameData).map
      (fun f => f.frame_number) =
      List.range ([⟨0, [5]⟩, ⟨1, [5]⟩, ⟨2, [5]⟩] : List FrameData).length ∧
    (∀ (k : Nat) (f : FrameData),
      (([⟨0, [5]⟩, ⟨1, [5]⟩, ⟨2, [5]⟩] : List FrameData))[k]? = some f →
      f.frame_number = k) :=
  ⟨by decide,
   frame_numbers_sequential (fun _ => some [5]) ["f0", "f1", "f2"]
     [⟨0, [5]⟩, ⟨1, [5]⟩, ⟨2, [5]⟩] (by decide)⟩
